import Mathlib

/-!
# Verification of the hcl-lang decoder / reference-resolver specification

This development shallowly embeds the parts of the `hcl-lang` repository that
the specification talks about:

* the reference index (`Target`, `Origin`, `Origins.Targeting`) used for
  navigation queries,
* the semantic-token emitter (`Decoder.SemanticTokensInFile`) together with the
  schema model (`BodySchema`, `BlockSchema`, `AttributeSchema`, body
  extensions, dependent bodies, dynamic-block expansion),
* hover rendering for literal object types, and
* the `MissingRequiredAttribute` validator.

Source files present in the repository snapshot provide the validator
implementation directly; for the decoder and the reference resolver only the
repository's test suites are present, so those operations are modelled from
the specification's wording and are kept consistent with every behaviour the
repository's own tests pin down.  Positions are byte offsets; a `SrcRange` is
a half-open byte interval inside a single file.
-/

/-- A source range, as a half-open interval of byte offsets. -/
structure SrcRange where
  startB : Nat
  stopB : Nat
deriving DecidableEq

/-- Byte containment of one range in another (used for scope checks). -/
def SrcRange.containsRange (outer inner : SrcRange) : Bool :=
  outer.startB ≤ inner.startB && inner.stopB ≤ outer.stopB

-- The subset of the `cty` type system the analysed schemas use.  Object
-- types carry their fields as an association list (`Fields`).
mutual
inductive CtyType where
  | str : CtyType
  | num : CtyType
  | boolT : CtyType
  | dynamic : CtyType
  | mapT : CtyType → CtyType
  | listT : CtyType → CtyType
  | setT : CtyType → CtyType
  | obj : Fields → CtyType

inductive Fields where
  | nil : Fields
  | cons : String → CtyType → Fields → Fields
end

-- Structural (boolean) equality of types / field lists.
mutual
def CtyType.beq : CtyType → CtyType → Bool
  | .str, .str => true
  | .num, .num => true
  | .boolT, .boolT => true
  | .dynamic, .dynamic => true
  | .mapT a, .mapT b => CtyType.beq a b
  | .listT a, .listT b => CtyType.beq a b
  | .setT a, .setT b => CtyType.beq a b
  | .obj a, .obj b => Fields.beq a b
  | _, _ => false

def Fields.beq : Fields → Fields → Bool
  | .nil, .nil => true
  | .cons n t r, .cons n' t' r' => n == n' && CtyType.beq t t' && Fields.beq r r'
  | _, _ => false
end

instance : BEq CtyType := ⟨CtyType.beq⟩

/-- Look a field name up in an object type's field list. -/
def Fields.find : Fields → String → Option CtyType
  | .nil, _ => none
  | .cons n t rest, name => if n == name then some t else rest.find name

namespace reference

/-- One step of a symbol address (`lang.RootStep` / `lang.AttrStep`). -/
inductive AddrStep where
  | root : String → AddrStep
  | attr : String → AddrStep
deriving BEq, DecidableEq

/-- A symbol address: an ordered sequence of steps. -/
abbrev Address := List AddrStep

/-- A single type/scope compatibility requirement imposed by a usage site
(`reference.OriginConstraint`).  `none` stands for the Go zero value
(empty scope id / `cty.NilType`). -/
structure OriginConstraint where
  ofScopeId : Option String
  ofType : Option CtyType

/-- A usage site (`reference.Origin`), reduced to the data `Targeting`
inspects: the referenced address and the constraint list. -/
structure Origin where
  addr : Address
  constraints : List OriginConstraint

-- A declared symbol (`reference.Target`): address, optional scope
-- identifier, optional value type and nested sub-targets (a `TargetList`).
mutual
inductive Target where
  | mk : Address → Option String → Option CtyType → TargetList → Target

inductive TargetList where
  | nil : TargetList
  | cons : Target → TargetList → TargetList
end

def Target.addr : Target → Address
  | .mk a _ _ _ => a

def Target.scopeId : Target → Option String
  | .mk _ s _ _ => s

def Target.type : Target → Option CtyType
  | .mk _ _ t _ => t

def Target.nested : Target → TargetList
  | .mk _ _ _ n => n

/-- Modelled from the spec: the per-constraint compatibility rule of
`Origins.Targeting` (§4.3).  A constraint that names a scope identifier only
matches a target with the identical scope; on the type side a dynamically
typed target matches anything, a constraint type of dynamic matches any typed
target, and otherwise the types must be identical.  A constraint that names
no type matches only a dynamically typed target. -/
def Target.matchesConstraint (t : Target) (oc : OriginConstraint) : Bool :=
  (match oc.ofScopeId with
    | none => true
    | some s => t.scopeId == some s) &&
  (t.type == some CtyType.dynamic ||
    (match oc.ofType with
      | none => false
      | some ot => (ot == CtyType.dynamic && t.type.isSome) || t.type == some ot))

/-- Modelled from the spec: address admissibility — the origin's address must
equal the target's address, except that a dynamically typed target also
admits origins whose address extends the target's address (the unknown value
may contain arbitrary nested symbols). -/
def Target.addrMatches (t : Target) (oaddr : Address) : Bool :=
  t.addr == oaddr || (t.type == some CtyType.dynamic && t.addr.isPrefixOf oaddr)

/-- Modelled from the spec: whether one origin targets one (non-nested)
target (§4.3).  An origin with no constraints matches any type-aware target
at a matching address; otherwise the constraint entries are disjuncts. -/
def Target.isTargetableBy (t : Target) (o : Origin) : Bool :=
  t.addrMatches o.addr &&
  (if o.constraints.isEmpty then t.type.isSome
   else o.constraints.any t.matchesConstraint)

-- Modelled from the spec: `reference.Origins.Targeting` — origins matching
-- the target itself, followed by origins matching any nested target,
-- recursively.
mutual
def targeting (ro : List Origin) : Target → List Origin
  | .mk a s ty n =>
    ro.filter (Target.isTargetableBy (.mk a s ty n)) ++ targetingList ro n

def targetingList (ro : List Origin) : TargetList → List Origin
  | .nil => []
  | .cons t rest => targeting ro t ++ targetingList ro rest
end

end reference

namespace decoder

/-- Semantic token types (`lang.TokenType`). -/
inductive TokenType where
  | blockType : TokenType
  | blockLabel : TokenType
  | attrName : TokenType
  | strTok : TokenType
  | numTok : TokenType
  | boolTok : TokenType
  | referenceStep : TokenType
  | mapKey : TokenType
deriving DecidableEq

/-- An emitted semantic token (`lang.SemanticToken`): type, ordered modifier
list, source range. -/
structure SemanticToken where
  type : TokenType
  modifiers : List String
  range : SrcRange
deriving DecidableEq

/-- One step of a traversal expression, with its own range. -/
structure TravStep where
  name : String
  range : SrcRange

/-- A key of an object-constructor item; `name = none` stands for an
interpolated (non-static) key. -/
structure ObjKey where
  name : Option String
  range : SrcRange

-- Expressions of the parsed document (the `hclsyntax` node kinds the claims
-- exercise): string/number/bool literals, traversals and object constructors.
mutual
inductive Expr where
  | slit : String → SrcRange → Expr
  | nlit : Int → SrcRange → Expr
  | blit : Bool → SrcRange → Expr
  | trav : List TravStep → SrcRange → Expr
  | objCons : ObjItems → SrcRange → Expr

inductive ObjItems where
  | nil : ObjItems
  | cons : ObjKey → Expr → ObjItems → ObjItems
end

def Expr.range : Expr → SrcRange
  | .slit _ r => r
  | .nlit _ r => r
  | .blit _ r => r
  | .trav _ r => r
  | .objCons _ r => r

/-- An attribute of a body: name, range of the name, value expression. -/
structure BodyAttribute where
  name : String
  nameRange : SrcRange
  value : Expr

/-- One block label occurrence in the document. -/
structure Label where
  value : String
  range : SrcRange

-- Document bodies and blocks (`hclsyntax.Body` / `hclsyntax.Block`); a block
-- records its type name and range, labels, body and full source range.
mutual
inductive Body where
  | mk : List BodyAttribute → BlockList → Body

inductive BlockList where
  | nil : BlockList
  | cons : Block → BlockList → BlockList

inductive Block where
  | mk : String → SrcRange → List Label → Body → SrcRange → Block
end

def Body.attrs : Body → List BodyAttribute
  | .mk a _ => a

def Body.blocks : Body → BlockList
  | .mk _ b => b

/-- The opt-in language features of a body schema (`schema.BodyExtensions`). -/
structure BodyExtensions where
  count : Bool
  forEach : Bool
  dynamicBlocks : Bool

/-- Schema for one positional block label (`schema.LabelSchema`). -/
structure LabelSchema where
  name : String
  isDepKey : Bool
  modifiers : List String

-- Expression constraints (`schema.Constraint`), restricted to the variants
-- the analysed schemas use: literal type, reference, union, and a map
-- constructor whose values are constrained by a literal element type.
mutual
inductive Constraint where
  | literalType : CtyType → Constraint
  | reference : CtyType → Constraint
  | oneOf : ConstraintList → Constraint
  | mapLit : CtyType → Constraint

inductive ConstraintList where
  | nil : ConstraintList
  | cons : Constraint → ConstraintList → ConstraintList
end

/-- Schema of one attribute (`schema.AttributeSchema`): its constraint and
declared semantic-token modifiers. -/
structure AttributeSchema where
  constraint : Constraint
  modifiers : List String

/-- A dependent-body key (`schema.SchemaKey`): label index/value pairs that
must match the block instance's concrete labels. -/
structure SchemaKey where
  labels : List (Nat × String)

-- Body and block schemas (`schema.BodySchema` / `schema.BlockSchema`).
-- `OptBodySchema` models the nilable `*schema.BodySchema` pointer and
-- `DepBodyList` the `DependentBody` map (as an association list).
mutual
inductive BodySchema where
  | mk : List (String × AttributeSchema) → SchemaBlockList → Option BodyExtensions → BodySchema

inductive SchemaBlockList where
  | nil : SchemaBlockList
  | cons : String → BlockSchema → SchemaBlockList → SchemaBlockList

inductive BlockSchema where
  | mk : List LabelSchema → List String → OptBodySchema → DepBodyList → BlockSchema

inductive OptBodySchema where
  | noneS : OptBodySchema
  | someS : BodySchema → OptBodySchema

inductive DepBodyList where
  | nil : DepBodyList
  | cons : SchemaKey → BodySchema → DepBodyList → DepBodyList
end

def BlockSchema.labels : BlockSchema → List LabelSchema
  | .mk l _ _ _ => l

def BlockSchema.modifiers : BlockSchema → List String
  | .mk _ m _ _ => m

def BlockSchema.body : BlockSchema → OptBodySchema
  | .mk _ _ b _ => b

def BlockSchema.depBody : BlockSchema → DepBodyList
  | .mk _ _ _ d => d

def OptBodySchema.attrsOf : OptBodySchema → List (String × AttributeSchema)
  | .noneS => []
  | .someS (.mk a _ _) => a

def OptBodySchema.blocksOf : OptBodySchema → SchemaBlockList
  | .noneS => .nil
  | .someS (.mk _ b _) => b

def OptBodySchema.extOf : OptBodySchema → Option BodyExtensions
  | .noneS => none
  | .someS (.mk _ _ e) => e

def OptBodySchema.extCount (bs : OptBodySchema) : Bool :=
  match bs.extOf with
  | some e => e.count
  | none => false

def OptBodySchema.extForEach (bs : OptBodySchema) : Bool :=
  match bs.extOf with
  | some e => e.forEach
  | none => false

def OptBodySchema.extDynamic (bs : OptBodySchema) : Bool :=
  match bs.extOf with
  | some e => e.dynamicBlocks
  | none => false

/-- Look an attribute schema up by name. -/
def lookupAttrSchema : List (String × AttributeSchema) → String → Option AttributeSchema
  | [], _ => none
  | (n, s) :: rest, name => if n == name then some s else lookupAttrSchema rest name

/-- Look a block schema up by block type name. -/
def SchemaBlockList.find : SchemaBlockList → String → Option BlockSchema
  | .nil, _ => none
  | .cons n s rest, name => if n == name then some s else rest.find name

def SchemaBlockList.append : SchemaBlockList → SchemaBlockList → SchemaBlockList
  | .nil, y => y
  | .cons n s r, y => .cons n s (r.append y)

/-- Does a dependent-body key match the concrete labels of a block
instance?  Every index/value pair of the key must agree with the label at
that index. -/
def keyMatches (k : SchemaKey) (lbls : List Label) : Bool :=
  k.labels.all (fun p =>
    match lbls.get? p.1 with
    | some l => l.value == p.2
    | none => false)

def DepBodyList.find : DepBodyList → List Label → Option BodySchema
  | .nil, _ => none
  | .cons k b rest, lbls => if keyMatches k lbls then some b else rest.find lbls

/-- Merge a dependent body schema into a block's declared body schema:
attributes and blocks of the matched entry are appended;
extensions stay those of the declared body. -/
def mergeBody : BodySchema → BodySchema → BodySchema
  | .mk a1 b1 e1, .mk a2 b2 _ => .mk (a1 ++ a2) (b1.append b2) e1

/-- Modelled from the spec: the effective body schema for one block
instance — the declared body plus the (single) dependent-body entry whose
key matches the instance's concrete labels (§4.2). -/
def mergedBodyOf (s : BlockSchema) (lbls : List Label) : OptBodySchema :=
  match s.body, s.depBody.find lbls with
  | .noneS, none => .noneS
  | .someS b, none => .someS b
  | .noneS, some d => .someS d
  | .someS b, some d => .someS (mergeBody b d)

/-- A reference target as used by the token emitter: local address (step
names), value type and the range the target is addressable from
(`none` = whole file). -/
structure RefTarget where
  localAddr : List String
  type : CtyType
  scopeRange : Option SrcRange

/-- A reference origin: referenced address and source range. -/
structure RefOrigin where
  addr : List String
  range : SrcRange

/-- The address a traversal expression refers to. -/
def travAddr (steps : List TravStep) : List String := steps.map (fun s => s.name)

/-- Type compatibility between a target's type and a reference constraint's
expected type: identical, or a dynamic wildcard on either side. -/
def refTypeOk (tty oty : CtyType) : Bool :=
  tty == oty || tty == CtyType.dynamic || oty == CtyType.dynamic

/-- Modelled from the spec: a traversal expression is highlighted as a
reference when an origin collected/supplied for exactly its range resolves,
within scope, to a target of a compatible type (§4.1, §4.4). -/
def refMatch (tgts : List RefTarget) (ogns : List RefOrigin) (ofType : CtyType)
    (steps : List TravStep) (r : SrcRange) : Bool :=
  ogns.any (fun o =>
    o.range = r && o.addr == travAddr steps &&
    tgts.any (fun t =>
      t.localAddr == o.addr && refTypeOk t.type ofType &&
      (match t.scopeRange with
        | none => true
        | some sr => sr.containsRange r)))

/-- Tokens for the items of a map-constructor literal: each static key is a
map-key token, each value is tokenized against the element type. -/
def tokensForMapItems (elemT : CtyType) : ObjItems → List SemanticToken
  | .nil => []
  | .cons k v rest =>
    ⟨.mapKey, [], k.range⟩ ::
      ((match v with
        | .slit _ r => if elemT == CtyType.str || elemT == CtyType.dynamic then [⟨.strTok, [], r⟩] else []
        | .nlit _ r => if elemT == CtyType.num || elemT == CtyType.dynamic then [⟨.numTok, [], r⟩] else []
        | .blit _ r => if elemT == CtyType.boolT || elemT == CtyType.dynamic then [⟨.boolTok, [], r⟩] else []
        | _ => []) ++ tokensForMapItems elemT rest)

-- Modelled from the spec: semantic tokens of one expression against one
-- constraint (§4.1).  Literal types emit a literal token when the value's
-- type matches (dynamic is a wildcard); references emit one
-- reference-step token per traversal step when the reference resolves;
-- `OneOf` returns the first alternative producing a non-empty token list.
mutual
def tokensForExpr (tgts : List RefTarget) (ogns : List RefOrigin) : Constraint → Expr → List SemanticToken
  | .literalType t, .slit _ r =>
    if t == CtyType.str || t == CtyType.dynamic then [⟨.strTok, [], r⟩] else []
  | .literalType t, .nlit _ r =>
    if t == CtyType.num || t == CtyType.dynamic then [⟨.numTok, [], r⟩] else []
  | .literalType t, .blit _ r =>
    if t == CtyType.boolT || t == CtyType.dynamic then [⟨.boolTok, [], r⟩] else []
  | .literalType _, _ => []
  | .reference ofType, .trav steps r =>
    if refMatch tgts ogns ofType steps r
    then steps.map (fun s => ⟨.referenceStep, [], s.range⟩)
    else []
  | .reference _, _ => []
  | .oneOf cs, e => tokensForFirst tgts ogns cs e
  | .mapLit elemT, .objCons items _ => tokensForMapItems elemT items
  | .mapLit _, _ => []

def tokensForFirst (tgts : List RefTarget) (ogns : List RefOrigin) : ConstraintList → Expr → List SemanticToken
  | .nil, _ => []
  | .cons c rest, e =>
    match tokensForExpr tgts ogns c e with
    | [] => tokensForFirst tgts ogns rest e
    | toks => toks
end

/-- The attribute schema injected by the count extension (`count`, a number
literal). -/
def countAttrSchema : AttributeSchema := ⟨.literalType CtyType.num, []⟩

/-- The attribute schema injected by the for-each extension (`for_each`,
a map whose keys are map-key tokens). -/
def forEachAttrSchema : AttributeSchema := ⟨.mapLit CtyType.dynamic, []⟩

/-- Modelled from the spec: the attribute schemas in effect for a body —
declared attributes first, plus the `count` / `for_each` attributes injected
by enabled extensions unless an attribute of the same name is declared
(attribute name collisions win over extension semantics, §4.2). -/
def effAttrs (bs : OptBodySchema) : List (String × AttributeSchema) :=
  let base := bs.attrsOf
  (base ++
    (if bs.extCount && (lookupAttrSchema base "count").isNone
     then [("count", countAttrSchema)] else [])) ++
    (if bs.extForEach && (lookupAttrSchema base "for_each").isNone
     then [("for_each", forEachAttrSchema)] else [])

/-- Tokens of one attribute: an attribute-name token (inherited plus declared
modifiers) followed by the value's expression tokens; an attribute with no
schema entry produces no tokens. -/
def tokensForAttr (tgts : List RefTarget) (ogns : List RefOrigin) (mods : List String)
    (eff : List (String × AttributeSchema)) (a : BodyAttribute) : List SemanticToken :=
  match lookupAttrSchema eff a.name with
  | none => []
  | some s => ⟨.attrName, mods ++ s.modifiers, a.nameRange⟩ :: tokensForExpr tgts ogns s.constraint a.value

def tokensForAttrs (tgts : List RefTarget) (ogns : List RefOrigin) (mods : List String)
    (eff : List (String × AttributeSchema)) (attrs : List BodyAttribute) : List SemanticToken :=
  (attrs.map (tokensForAttr tgts ogns mods eff)).flatten

/-- The modifiers a label schema contributes: its declared modifiers, plus
the `dependent` modifier for a dependency-key label when not already
declared. -/
def depKeyMods (ls : LabelSchema) : List String :=
  if ls.isDepKey then
    (if "dependent" ∈ ls.modifiers then ls.modifiers else ls.modifiers ++ ["dependent"])
  else ls.modifiers

/-- Label tokens for a block: one block-label token per label that has a
label schema, carrying the inherited modifiers plus the label's own. -/
def labelTokens (mods : List String) : List LabelSchema → List Label → List SemanticToken
  | _, [] => []
  | [], _ => []
  | ls :: lrest, l :: rest =>
    ⟨.blockLabel, mods ++ depKeyMods ls, l.range⟩ :: labelTokens mods lrest rest

-- Modelled from the spec: semantic tokens of a body against a body schema
-- (§4.4, §4.2).  Attributes are emitted in document order, then blocks;
-- blocks emit their type and label tokens before their body; the inherited
-- modifier list grows by each enclosing block's declared modifiers; a
-- block named `dynamic` expands to its labelled target block type once the
-- dynamic-blocks extension is enabled on an enclosing body, its `content`
-- block receiving the target's (dependent-body-resolved) schema directly.
mutual
def tokensForBody (tgts : List RefTarget) (ogns : List RefOrigin) (dynEnabled : Bool)
    (mods : List String) (bs : OptBodySchema) : Body → List SemanticToken
  | .mk attrs blocks =>
    tokensForAttrs tgts ogns mods (effAttrs bs) attrs ++
      tokensForBlocks tgts ogns (dynEnabled || bs.extDynamic) mods bs blocks

def tokensForBlocks (tgts : List RefTarget) (ogns : List RefOrigin) (dynEnabled : Bool)
    (mods : List String) (bs : OptBodySchema) : BlockList → List SemanticToken
  | .nil => []
  | .cons b rest =>
    tokensForBlock tgts ogns dynEnabled mods bs b ++ tokensForBlocks tgts ogns dynEnabled mods bs rest

def tokensForBlock (tgts : List RefTarget) (ogns : List RefOrigin) (dynEnabled : Bool)
    (mods : List String) (bs : OptBodySchema) : Block → List SemanticToken
  | .mk tyName tyR lbls body _ =>
    if dynEnabled && tyName == "dynamic" then
      match lbls with
      | [lbl] =>
        match bs.blocksOf.find lbl.value with
        | none => [⟨.blockType, mods, tyR⟩]
        | some tSchema =>
          match body with
          | .mk _ bblocks =>
            ⟨.blockType, mods, tyR⟩ :: ⟨.blockLabel, mods, lbl.range⟩ ::
              tokensForContentBlocks tgts ogns dynEnabled (mods ++ tSchema.modifiers)
                (mergedBodyOf tSchema []) bblocks
      | _ => []
    else
      match bs.blocksOf.find tyName with
      | none => []
      | some s =>
        ⟨.blockType, mods ++ s.modifiers, tyR⟩ ::
          (labelTokens (mods ++ s.modifiers) s.labels lbls ++
            tokensForBody tgts ogns dynEnabled (mods ++ s.modifiers) (mergedBodyOf s lbls) body)

def tokensForContentBlocks (tgts : List RefTarget) (ogns : List RefOrigin) (dynEnabled : Bool)
    (mods : List String) (target : OptBodySchema) : BlockList → List SemanticToken
  | .nil => []
  | .cons (.mk n r _ cbody _) rest =>
    (if n == "content"
     then ⟨.blockType, mods, r⟩ :: tokensForBody tgts ogns dynEnabled mods target cbody
     else []) ++ tokensForContentBlocks tgts ogns dynEnabled mods target rest
end

/-- A parsed file's body, classified by syntax: the supported `hclsyntax`
variant, the JSON variant of the same language, or an unclassifiable body
such as `hcl.EmptyBody()`. -/
inductive FileBody where
  | hclSyntax : Body → FileBody
  | jsonBody : FileBody
  | emptyBody : FileBody

def FileBody.isHclSyntax : FileBody → Bool
  | .hclSyntax _ => true
  | _ => false

/-- The immutable per-query context (`decoder.PathContext`): files, schema,
reference targets and origins. -/
structure PathContext where
  files : List (String × FileBody)
  schema : OptBodySchema
  referenceTargets : List RefTarget
  referenceOrigins : List RefOrigin

/-- The error kinds `SemanticTokensInFile` can return. -/
inductive DecoderError where
  | fileNotFound : DecoderError
  | unknownFileFormat : DecoderError
deriving DecidableEq

def filesFind : List (String × FileBody) → String → Option FileBody
  | [], _ => none
  | (n, f) :: rest, name => if n == name then some f else filesFind rest name

/-- Modelled from the spec: `Decoder.SemanticTokensInFile` — a missing file
is a file-not-found error, a body that is not the supported `hclsyntax`
variant is an unknown-file-format error, and otherwise the body's tokens are
produced (an absent schema yields an empty token list). -/
def SemanticTokensInFile (ctx : PathContext) (name : String) : Except DecoderError (List SemanticToken) :=
  match filesFind ctx.files name with
  | none => .error .fileNotFound
  | some (.hclSyntax b) =>
    .ok (tokensForBody ctx.referenceTargets ctx.referenceOrigins false [] ctx.schema b)
  | some _ => .error .unknownFileFormat

def Body.getAttr (b : Body) (name : String) : Option BodyAttribute :=
  b.attrs.find? (fun a => a.name == name)

/-- Is an attribute of the given name set to an object-constructor literal? -/
def attrsHaveObjCons (attrs : List BodyAttribute) (name : String) : Bool :=
  match attrs.find? (fun a => a.name == name) with
  | some a =>
    match a.value with
    | .objCons _ _ => true
    | _ => false
  | none => false

-- Modelled from the spec: the reference targets the collection pass produces
-- for the extension claims — `count.index` when the count extension is
-- enabled and the body sets `count`, and `each.key` / `each.value` when the
-- for-each extension is enabled and the body sets `for_each` to a map
-- literal; both are local to the enclosing block's own range (§4.2).
mutual
def collectTargetsBody (scope : Option SrcRange) (bs : OptBodySchema) : Body → List RefTarget
  | .mk attrs blocks =>
    (if bs.extCount && (lookupAttrSchema bs.attrsOf "count").isNone
        && (attrs.find? (fun a => a.name == "count")).isSome
     then [⟨["count", "index"], CtyType.num, scope⟩] else []) ++
    (if bs.extForEach && (lookupAttrSchema bs.attrsOf "for_each").isNone
        && attrsHaveObjCons attrs "for_each"
     then [⟨["each", "key"], CtyType.str, scope⟩, ⟨["each", "value"], CtyType.dynamic, scope⟩]
     else []) ++
    collectTargetsBlocks bs blocks

def collectTargetsBlocks (bs : OptBodySchema) : BlockList → List RefTarget
  | .nil => []
  | .cons (.mk tyName _ lbls body srcR) rest =>
    (match bs.blocksOf.find tyName with
     | none => []
     | some s => collectTargetsBody (some srcR) (mergedBodyOf s lbls) body) ++
    collectTargetsBlocks bs rest
end

-- The expected type of the first reference alternative of a constraint,
-- if any.
mutual
def constraintRefType : Constraint → Option CtyType
  | .reference t => some t
  | .oneOf cs => constraintListRefType cs
  | _ => none

def constraintListRefType : ConstraintList → Option CtyType
  | .nil => none
  | .cons c rest =>
    match constraintRefType c with
    | some t => some t
    | none => constraintListRefType rest
end

/-- The origin one attribute contributes: a traversal value of an attribute
whose schema admits a reference. -/
def collectOriginsAttr (eff : List (String × AttributeSchema)) (a : BodyAttribute) : List RefOrigin :=
  match lookupAttrSchema eff a.name with
  | none => []
  | some s =>
    match a.value with
    | .trav steps r =>
      if (constraintRefType s.constraint).isSome then [⟨travAddr steps, r⟩] else []
    | _ => []

-- Modelled from the spec: the reference origins the collection pass
-- produces — one per traversal expression sitting under a schema constraint
-- that admits a reference (§3, §4.3).
mutual
def collectOriginsBody (bs : OptBodySchema) : Body → List RefOrigin
  | .mk attrs blocks =>
    (attrs.map (collectOriginsAttr (effAttrs bs))).flatten ++ collectOriginsBlocks bs blocks

def collectOriginsBlocks (bs : OptBodySchema) : BlockList → List RefOrigin
  | .nil => []
  | .cons (.mk tyName _ lbls body _) rest =>
    (match bs.blocksOf.find tyName with
     | none => []
     | some s => collectOriginsBody (mergedBodyOf s lbls) body) ++
    collectOriginsBlocks bs rest
end

/-- Modelled from the spec: `Decoder.CollectReferenceTargets` over the
context's files. -/
def CollectReferenceTargets (ctx : PathContext) : List RefTarget :=
  (ctx.files.map (fun f =>
    match f.2 with
    | .hclSyntax b => collectTargetsBody none ctx.schema b
    | _ => [])).flatten

/-- Modelled from the spec: `Decoder.CollectReferenceOrigins` over the
context's files. -/
def CollectReferenceOrigins (ctx : PathContext) : List RefOrigin :=
  (ctx.files.map (fun f =>
    match f.2 with
    | .hclSyntax b => collectOriginsBody ctx.schema b
    | _ => [])).flatten

end decoder

namespace decoder

def spacesN (n : Nat) : String := String.mk (List.replicate n ' ')

-- Modelled from the spec: the compact type-signature rendering used by hover
-- over literal types (§4.1).  Primitive types render as their friendly
-- names, containers recursively; an object type renders its fields one per
-- line, indented two further spaces per nesting level.  Field lists model
-- the lexically ordered iteration of `cty` object attribute maps.
mutual
def renderType (indent : Nat) : CtyType → String
  | .str => "string"
  | .num => "number"
  | .boolT => "bool"
  | .dynamic => "dynamic"
  | .mapT t => "map(" ++ renderType indent t ++ ")"
  | .listT t => "list(" ++ renderType indent t ++ ")"
  | .setT t => "set(" ++ renderType indent t ++ ")"
  | .obj .nil => "\x7b\x7d"
  | .obj (.cons n t rest) => "\x7b\n" ++ renderFields (indent + 2) (.cons n t rest) ++ spacesN indent ++ "\x7d"

def renderFields (indent : Nat) : Fields → String
  | .nil => ""
  | .cons n t rest => spacesN indent ++ n ++ " = " ++ renderType indent t ++ "\n" ++ renderFields indent rest
end

/-- The schema-declared type of a source object item's key: `none` when the
key is interpolated or names no declared field. -/
def itemFieldType (fs : Fields) (k : ObjKey) : Option CtyType :=
  match k.name with
  | none => none
  | some n => fs.find n

-- Modelled from the spec: structural matching of a literal value against a
-- literal type (§4.1).  Keys present in the source but absent from the
-- schema's object type are skipped rather than causing a mismatch; values
-- of known keys must match the declared field type recursively.
mutual
def exprMatchesType : CtyType → Expr → Bool
  | .dynamic, _ => true
  | .str, .slit _ _ => true
  | .num, .nlit _ _ => true
  | .boolT, .blit _ _ => true
  | .mapT t, .objCons items _ => itemsMatchMap t items
  | .obj fs, .objCons items _ => itemsMatchObj fs items
  | _, _ => false

def itemsMatchMap (t : CtyType) : ObjItems → Bool
  | .nil => true
  | .cons _ v rest => exprMatchesType t v && itemsMatchMap t rest

def itemsMatchObj (fs : Fields) : ObjItems → Bool
  | .nil => true
  | .cons k v rest =>
    (match itemFieldType fs k with
      | none => true
      | some ft => exprMatchesType ft v) && itemsMatchObj fs rest
end

/-- Hover content (markdown) for a literal type: the rendered signature in a
code fence for an object type, the italicised friendly name otherwise. -/
def hoverContentForType (t : CtyType) : String :=
  match t with
  | .obj _ => "```\n" ++ renderType 0 t ++ "\n```\n_object_"
  | _ => "_" ++ renderType 0 t ++ "_"

/-- Hover result data: markdown content and the range it applies to. -/
structure HoverData where
  content : String
  range : SrcRange
deriving DecidableEq

/-- Modelled from the spec: hover for an expression matched against a
`LiteralType` constraint — the whole expression's range with the rendered
type signature when the value structurally matches, and no data otherwise
(§4.1). -/
def hoverDataForLiteralType (t : CtyType) (e : Expr) : Option HoverData :=
  if exprMatchesType t e then some ⟨hoverContentForType t, e.range⟩ else none

end decoder

namespace validator

/-- The node kinds `MissingRequiredAttribute.Visit` distinguishes: an
`hclsyntax.Body` (with the names of its attributes and its source range) or
any other node. -/
inductive VNode where
  | body : List String → SrcRange → VNode
  | other : VNode

/-- The part of `schema.AttributeSchema` the validator reads. -/
structure VAttributeSchema where
  isRequired : Bool

/-- The part of `schema.BodySchema` the validator reads; `attributes = none`
models a nil `Attributes` map. -/
structure VBodySchema where
  attributes : Option (List (String × VAttributeSchema))

/-- Diagnostic severities (`hcl.DiagError` / `hcl.DiagWarning`). -/
inductive Severity where
  | errSev : Severity
  | warnSev : Severity
deriving DecidableEq

/-- An `hcl.Diagnostic` as the validator produces it. -/
structure Diagnostic where
  severity : Severity
  summary : String
  detail : String
  subject : SrcRange
deriving DecidableEq

/-- The diagnostic built for one missing required attribute. -/
def missingDiag (name : String) (r : SrcRange) : Diagnostic :=
  ⟨.errSev,
   "Required attribute \"" ++ name ++ "\" not specified",
   "An attribute named \"" ++ name ++ "\" is required here",
   r⟩

/-- `MissingRequiredAttribute.Visit`: returns the context unchanged and one
error diagnostic for every schema attribute that is required but absent from
the body; non-body nodes, a nil schema and a nil attribute map produce no
diagnostics.  (The context is an arbitrary type, passed through.) -/
def MissingRequiredAttribute.Visit {α : Type} (ctx : α) (node : VNode)
    (nodeSchema : Option VBodySchema) : α × List Diagnostic :=
  match node with
  | .other => (ctx, [])
  | .body attrNames srcR =>
    match nodeSchema with
    | none => (ctx, [])
    | some s =>
      match s.attributes with
      | none => (ctx, [])
      | some schemaAttrs =>
        (ctx, schemaAttrs.foldl
          (fun diags p =>
            if p.2.isRequired && !(attrNames.contains p.1)
            then diags ++ [missingDiag p.1 srcR]
            else diags) [])

end validator

namespace decoder

/-- Append of object-constructor item lists. -/
def ObjItems.append : ObjItems → ObjItems → ObjItems
  | .nil, y => y
  | .cons k v rest, y => .cons k v (rest.append y)

/-- Prepend inherited modifiers to a token when it is a structural token
(block type, block label, attribute name); expression tokens are
unchanged. -/
def promote (m : List String) (t : SemanticToken) : SemanticToken :=
  match t.type with
  | .blockType => ⟨t.type, m ++ t.modifiers, t.range⟩
  | .blockLabel => ⟨t.type, m ++ t.modifiers, t.range⟩
  | .attrName => ⟨t.type, m ++ t.modifiers, t.range⟩
  | _ => t

/-! ### Concrete fixtures

Documents, schemas and contexts transcribed from the repository's own test
suite (byte offsets match the test configurations). -/

/-- A context whose single file has an `hcl.EmptyBody()`-style body that is
not the supported `hclsyntax` variant (`TestDecoder_SemanticTokensInFile_emptyBody`). -/
def emptyBodyCtx : PathContext := ⟨[("test.tf", .emptyBody)], .noneS, [], []⟩

/-- A context whose single file parsed with zero-byte content
(`TestDecoder_SemanticTokensInFile_zeroByteContent`). -/
def zeroByteCtx : PathContext := ⟨[("test.tf", .hclSyntax (.mk [] .nil))], .noneS, [], []⟩

/-- A context whose single file is the JSON variant of the language
(`TestDecoder_SemanticTokensInFile_json`). -/
def jsonCtx : PathContext := ⟨[("test.tf.json", .jsonBody)], .noneS, [], []⟩

/-- Schema of `TestDecoder_SemanticTokensInFile_customModifiers`, restricted
to the `module` block: block modifiers `module`, label modifiers `name`,
attributes `source` (string, `dependent` modifier) and `count` (number). -/
def modSchema : OptBodySchema :=
  .someS (.mk []
    (.cons "module"
      (.mk [⟨"name", false, ["name"]⟩] ["module"]
        (.someS (.mk
          [("count", ⟨.literalType .num, []⟩),
           ("source", ⟨.literalType .str, ["dependent"]⟩)]
          .nil none))
        .nil)
      .nil)
    none)

/-- Document `module "ref" \x7b source = "./sub"  count = 1 \x7d`. -/
def modDoc : Body :=
  .mk []
    (.cons
      (.mk "module" ⟨0, 6⟩ [⟨"ref", ⟨7, 12⟩⟩]
        (.mk
          [⟨"source", ⟨17, 23⟩, .slit "./sub" ⟨26, 33⟩⟩,
           ⟨"count", ⟨36, 41⟩, .nlit 1 ⟨45, 46⟩⟩]
          .nil)
        ⟨0, 48⟩)
      .nil)

def modCtx : PathContext := ⟨[("test.tf", .hclSyntax modDoc)], modSchema, [], []⟩

/-- The tokens of `modDoc`: the string and number value tokens carry no
modifiers although their enclosing block declares `module`. -/
def modTokens : List SemanticToken :=
  [⟨.blockType, ["module"], ⟨0, 6⟩⟩,
   ⟨.blockLabel, ["module", "name"], ⟨7, 12⟩⟩,
   ⟨.attrName, ["module", "dependent"], ⟨17, 23⟩⟩,
   ⟨.strTok, [], ⟨26, 33⟩⟩,
   ⟨.attrName, ["module"], ⟨36, 41⟩⟩,
   ⟨.numTok, [], ⟨45, 46⟩⟩]

/-- Schema of `TestDecoder_SemanticTokensInFile_extensions_basic`: a
`resource` block with a dependency-key `type` label, count extension
enabled, and `cpu_core_count` constrained by
`OneOf(Reference(number), LiteralType(number))`. -/
def fxCountSchema : OptBodySchema :=
  .someS (.mk []
    (.cons "resource"
      (.mk [⟨"type", true, ["dependent"]⟩, ⟨"name", false, []⟩] []
        (.someS (.mk
          [("cpu_core_count",
            ⟨.oneOf (.cons (.reference .num) (.cons (.literalType .num) .nil)), []⟩)]
          .nil (some ⟨true, false, false⟩)))
        .nil)
      .nil)
    none)

/-- Document of `extensions_basic`:
`resource "aws_instance" "app_server" \x7b count = 1
cpu_core_count = count.index \x7d`. -/
def fxCountDoc : Body :=
  .mk []
    (.cons
      (.mk "resource" ⟨1, 9⟩ [⟨"aws_instance", ⟨10, 24⟩⟩, ⟨"app_server", ⟨25, 37⟩⟩]
        (.mk
          [⟨"count", ⟨42, 47⟩, .nlit 1 ⟨59, 60⟩⟩,
           ⟨"cpu_core_count", ⟨63, 77⟩,
            .trav [⟨"count", ⟨80, 85⟩⟩, ⟨"index", ⟨86, 91⟩⟩] ⟨80, 91⟩⟩]
          .nil)
        ⟨1, 93⟩)
      .nil)

def fxCountTargets : List RefTarget := [⟨["count", "index"], .num, none⟩]

def fxCountOrigins : List RefOrigin := [⟨["count", "index"], ⟨80, 91⟩⟩]

def fxCountCtx : PathContext :=
  ⟨[("test.tf", .hclSyntax fxCountDoc)], fxCountSchema, fxCountTargets, fxCountOrigins⟩

def fxCountTokens : List SemanticToken :=
  [⟨.blockType, [], ⟨1, 9⟩⟩,
   ⟨.blockLabel, ["dependent"], ⟨10, 24⟩⟩,
   ⟨.blockLabel, [], ⟨25, 37⟩⟩,
   ⟨.attrName, [], ⟨42, 47⟩⟩,
   ⟨.numTok, [], ⟨59, 60⟩⟩,
   ⟨.attrName, [], ⟨63, 77⟩⟩,
   ⟨.referenceStep, [], ⟨80, 85⟩⟩,
   ⟨.referenceStep, [], ⟨86, 91⟩⟩]

/-- Body schema of the `resource` block in
`TestDecoder_SemanticTokensInFile_extensions_countUndeclared`: count
extension enabled, `cpu_count` constrained by a number literal type only. -/
def fxUndeclBodySchema : OptBodySchema :=
  .someS (.mk
    [("cpu_count", ⟨.literalType .num, []⟩)]
    .nil (some ⟨true, false, false⟩))

/-- Schema of `TestDecoder_SemanticTokensInFile_extensions_countUndeclared`. -/
def fxUndeclSchema : OptBodySchema :=
  .someS (.mk []
    (.cons "resource"
      (.mk [⟨"type", true, ["dependent"]⟩, ⟨"name", false, []⟩] []
        fxUndeclBodySchema
        .nil)
      .nil)
    none)

/-- Document of `countUndeclared`:
`resource "vault_auth_backend" "blah" \x7b cpu_count = count.index \x7d` —
the body enables the count extension and contains the text `count.index`. -/
def fxUndeclDoc : Body :=
  .mk []
    (.cons
      (.mk "resource" ⟨1, 9⟩ [⟨"vault_auth_backend", ⟨10, 30⟩⟩, ⟨"blah", ⟨31, 37⟩⟩]
        (.mk
          [⟨"cpu_count", ⟨42, 51⟩,
            .trav [⟨"count", ⟨54, 59⟩⟩, ⟨"index", ⟨60, 65⟩⟩] ⟨54, 65⟩⟩]
          .nil)
        ⟨1, 67⟩)
      .nil)

def fxUndeclCtx : PathContext := ⟨[("test.tf", .hclSyntax fxUndeclDoc)], fxUndeclSchema, [], []⟩

def fxUndeclTokens : List SemanticToken :=
  [⟨.blockType, [], ⟨1, 9⟩⟩,
   ⟨.blockLabel, ["dependent"], ⟨10, 30⟩⟩,
   ⟨.blockLabel, [], ⟨31, 37⟩⟩,
   ⟨.attrName, [], ⟨42, 51⟩⟩]

/-- Schema of
`TestDecoder_SemanticTokensInFile_extensions_countIndexInSubBlock`: the
`resource` body redeclares `count` as an ordinary number attribute and
declares a sub-block `block` whose `attr` is a number reference. -/
def fxSubSchema : OptBodySchema :=
  .someS (.mk []
    (.cons "resource"
      (.mk [⟨"type", true, ["dependent"]⟩, ⟨"name", false, []⟩] []
        (.someS (.mk
          [("count", ⟨.literalType .num, []⟩)]
          (.cons "block"
            (.mk [] []
              (.someS (.mk [("attr", ⟨.reference .num, []⟩)] .nil none))
              .nil)
            .nil)
          (some ⟨true, false, false⟩)))
        .nil)
      .nil)
    none)

/-- Document of `countIndexInSubBlock`:
`resource "foobar" "name" \x7b count = 1  block \x7b attr = count.index \x7d \x7d`. -/
def fxSubDoc : Body :=
  .mk []
    (.cons
      (.mk "resource" ⟨1, 9⟩ [⟨"foobar", ⟨10, 18⟩⟩, ⟨"name", ⟨19, 25⟩⟩]
        (.mk
          [⟨"count", ⟨29, 34⟩, .nlit 1 ⟨37, 38⟩⟩]
          (.cons
            (.mk "block" ⟨40, 45⟩ []
              (.mk
                [⟨"attr", ⟨50, 54⟩,
                  .trav [⟨"count", ⟨57, 62⟩⟩, ⟨"index", ⟨63, 68⟩⟩] ⟨57, 68⟩⟩]
                .nil)
              ⟨40, 71⟩)
            .nil))
        ⟨1, 73⟩)
      .nil)

def fxSubTargets : List RefTarget := [⟨["count", "index"], .num, none⟩]

def fxSubOrigins : List RefOrigin := [⟨["count", "index"], ⟨57, 68⟩⟩]

def fxSubCtx : PathContext :=
  ⟨[("test.tf", .hclSyntax fxSubDoc)], fxSubSchema, fxSubTargets, fxSubOrigins⟩

def fxSubTokens : List SemanticToken :=
  [⟨.blockType, [], ⟨1, 9⟩⟩,
   ⟨.blockLabel, ["dependent"], ⟨10, 18⟩⟩,
   ⟨.blockLabel, [], ⟨19, 25⟩⟩,
   ⟨.attrName, [], ⟨29, 34⟩⟩,
   ⟨.numTok, [], ⟨37, 38⟩⟩,
   ⟨.blockType, [], ⟨40, 45⟩⟩,
   ⟨.attrName, [], ⟨50, 54⟩⟩,
   ⟨.referenceStep, [], ⟨57, 62⟩⟩,
   ⟨.referenceStep, [], ⟨63, 68⟩⟩]

/-- Scope fixture: block type `a` enables the count extension; sibling block
type `b` declares `at` as a number reference.  The supplied `count.index`
target is scoped to block `a`'s range. -/
def fxScopeSchema : OptBodySchema :=
  .someS (.mk []
    (.cons "a"
      (.mk [⟨"name", false, []⟩] []
        (.someS (.mk [] .nil (some ⟨true, false, false⟩)))
        .nil)
      (.cons "b"
        (.mk [⟨"name", false, []⟩] []
          (.someS (.mk [("at", ⟨.reference .num, []⟩)] .nil none))
          .nil)
        .nil))
    none)

/-- Document `a "x" \x7b \x7d  b "y" \x7b at = count.index \x7d`. -/
def fxScopeDoc : Body :=
  .mk []
    (.cons (.mk "a" ⟨0, 1⟩ [⟨"x", ⟨2, 5⟩⟩] (.mk [] .nil) ⟨0, 9⟩)
      (.cons
        (.mk "b" ⟨10, 11⟩ [⟨"y", ⟨12, 15⟩⟩]
          (.mk
            [⟨"at", ⟨20, 22⟩,
              .trav [⟨"count", ⟨25, 30⟩⟩, ⟨"index", ⟨31, 36⟩⟩] ⟨25, 36⟩⟩]
            .nil)
          ⟨10, 38⟩)
        .nil))

/-- The `count.index` target scoped to block `a`'s source range only. -/
def fxScopeTargets : List RefTarget := [⟨["count", "index"], .num, some ⟨0, 9⟩⟩]

def fxScopeOrigins : List RefOrigin := [⟨["count", "index"], ⟨25, 36⟩⟩]

def fxScopeCtx : PathContext :=
  ⟨[("test.tf", .hclSyntax fxScopeDoc)], fxScopeSchema, fxScopeTargets, fxScopeOrigins⟩

/-- Tokens of the scope fixture: no reference-step token is emitted in block
`b`, outside the target's scope. -/
def fxScopeTokens : List SemanticToken :=
  [⟨.blockType, [], ⟨0, 1⟩⟩,
   ⟨.blockLabel, [], ⟨2, 5⟩⟩,
   ⟨.blockType, [], ⟨10, 11⟩⟩,
   ⟨.blockLabel, [], ⟨12, 15⟩⟩,
   ⟨.attrName, [], ⟨20, 22⟩⟩]

/-- The `setting` block schema resolved through the dependent body in
`TestDecoder_SemanticTokensInFile_extensions_dynamic` (nested case): its body
declares a `bar` block with an empty body schema. -/
def fxDynSettingSchema : BlockSchema :=
  .mk [] []
    (.someS (.mk []
      (.cons "bar" (.mk [] [] (.someS (.mk [] .nil none)) .nil) .nil)
      none))
    .nil

/-- Schema of the nested dynamic-blocks test case: `myblock` enables the
dynamic-blocks extension and resolves `setting` via its dependent body keyed
on the first label being `foo`. -/
def fxDynSchema : OptBodySchema :=
  .someS (.mk []
    (.cons "myblock"
      (.mk [⟨"type", true, ["dependent"]⟩, ⟨"name", false, []⟩] []
        (.someS (.mk [] .nil (some ⟨false, false, true⟩)))
        (.cons ⟨[(0, "foo")]⟩
          (.mk [] (.cons "setting" fxDynSettingSchema .nil) none)
          .nil))
      .nil)
    none)

/-- Document
`myblock "foo" "bar" \x7b dynamic "setting" \x7b content \x7b dynamic "bar"
\x7b content \x7b\x7d \x7d \x7d \x7d \x7d` (dynamic blocks nested at depth
two). -/
def fxDynDoc : Body :=
  .mk []
    (.cons
      (.mk "myblock" ⟨0, 7⟩ [⟨"foo", ⟨8, 13⟩⟩, ⟨"bar", ⟨14, 19⟩⟩]
        (.mk []
          (.cons
            (.mk "dynamic" ⟨24, 31⟩ [⟨"setting", ⟨32, 41⟩⟩]
              (.mk []
                (.cons
                  (.mk "content" ⟨48, 55⟩ []
                    (.mk []
                      (.cons
                        (.mk "dynamic" ⟨64, 71⟩ [⟨"bar", ⟨72, 77⟩⟩]
                          (.mk []
                            (.cons (.mk "content" ⟨88, 95⟩ [] (.mk [] .nil) ⟨88, 107⟩) .nil))
                          ⟨64, 115⟩)
                        .nil))
                    ⟨48, 121⟩)
                  .nil))
              ⟨24, 125⟩)
            .nil))
        ⟨0, 127⟩)
      .nil)

def fxDynCtx : PathContext := ⟨[("test.tf", .hclSyntax fxDynDoc)], fxDynSchema, [], []⟩

def fxDynTokens : List SemanticToken :=
  [⟨.blockType, [], ⟨0, 7⟩⟩,
   ⟨.blockLabel, ["dependent"], ⟨8, 13⟩⟩,
   ⟨.blockLabel, [], ⟨14, 19⟩⟩,
   ⟨.blockType, [], ⟨24, 31⟩⟩,
   ⟨.blockLabel, [], ⟨32, 41⟩⟩,
   ⟨.blockType, [], ⟨48, 55⟩⟩,
   ⟨.blockType, [], ⟨64, 71⟩⟩,
   ⟨.blockLabel, [], ⟨72, 77⟩⟩,
   ⟨.blockType, [], ⟨88, 95⟩⟩]

/-- Schema of `TestDecoder_SemanticTokensInFile_extensions_for_each`:
for-each extension enabled; `thing` is a string reference and `thing_other`
a dynamic reference. -/
def fxFeSchema : OptBodySchema :=
  .someS (.mk []
    (.cons "resource"
      (.mk [⟨"type", true, ["dependent"]⟩, ⟨"name", false, []⟩] []
        (.someS (.mk
          [("thing", ⟨.reference .str, []⟩),
           ("thing_other", ⟨.reference .dynamic, []⟩)]
          .nil (some ⟨false, true, false⟩)))
        .nil)
      .nil)
    none)

/-- Document of the for-each test:
`resource "foobar" "name" \x7b for_each = \x7b a_group = "eastus" \x7d
thing = each.key  thing_other = each.value \x7d`. -/
def fxFeDoc : Body :=
  .mk []
    (.cons
      (.mk "resource" ⟨1, 9⟩ [⟨"foobar", ⟨10, 18⟩⟩, ⟨"name", ⟨19, 25⟩⟩]
        (.mk
          [⟨"for_each", ⟨29, 37⟩,
            .objCons (.cons ⟨some "a_group", ⟨44, 51⟩⟩ (.slit "eastus" ⟨54, 62⟩) .nil) ⟨40, 65⟩⟩,
           ⟨"thing", ⟨67, 72⟩,
            .trav [⟨"each", ⟨75, 79⟩⟩, ⟨"key", ⟨80, 83⟩⟩] ⟨75, 83⟩⟩,
           ⟨"thing_other", ⟨85, 96⟩,
            .trav [⟨"each", ⟨99, 103⟩⟩, ⟨"value", ⟨104, 109⟩⟩] ⟨99, 109⟩⟩]
          .nil)
        ⟨1, 111⟩)
      .nil)

/-- The targets one would specify directly for the for-each document:
`each.key` (string) and `each.value` (dynamic), local to the block. -/
def fxFeTargets : List RefTarget :=
  [⟨["each", "key"], .str, some ⟨1, 111⟩⟩,
   ⟨["each", "value"], .dynamic, some ⟨1, 111⟩⟩]

/-- The origins one would specify directly for the for-each document. -/
def fxFeOrigins : List RefOrigin :=
  [⟨["each", "key"], ⟨75, 83⟩⟩,
   ⟨["each", "value"], ⟨99, 109⟩⟩]

/-- The for-each context before any reference data is attached. -/
def fxFeBareCtx : PathContext := ⟨[("test.tf", .hclSyntax fxFeDoc)], fxFeSchema, [], []⟩

/-- The for-each context with directly specified targets/origins. -/
def fxFeDirectCtx : PathContext :=
  ⟨[("test.tf", .hclSyntax fxFeDoc)], fxFeSchema, fxFeTargets, fxFeOrigins⟩

/-- The for-each context with collected targets/origins fed back in. -/
def fxFeCollectedCtx : PathContext :=
  ⟨[("test.tf", .hclSyntax fxFeDoc)], fxFeSchema,
    CollectReferenceTargets fxFeBareCtx, CollectReferenceOrigins fxFeBareCtx⟩

def fxFeTokens : List SemanticToken :=
  [⟨.blockType, [], ⟨1, 9⟩⟩,
   ⟨.blockLabel, ["dependent"], ⟨10, 18⟩⟩,
   ⟨.blockLabel, [], ⟨19, 25⟩⟩,
   ⟨.attrName, [], ⟨29, 37⟩⟩,
   ⟨.mapKey, [], ⟨44, 51⟩⟩,
   ⟨.strTok, [], ⟨54, 62⟩⟩,
   ⟨.attrName, [], ⟨67, 72⟩⟩,
   ⟨.referenceStep, [], ⟨75, 79⟩⟩,
   ⟨.referenceStep, [], ⟨80, 83⟩⟩,
   ⟨.attrName, [], ⟨85, 96⟩⟩,
   ⟨.referenceStep, [], ⟨99, 103⟩⟩,
   ⟨.referenceStep, [], ⟨104, 109⟩⟩]

/-- The literal object type of the `object as type` hover test case:
fields in lexical order. -/
def fxObjType : CtyType :=
  .obj (.cons "bool" .boolT
    (.cons "nested_map" (.mapT .str)
      (.cons "nested_obj" (.obj (.cons "one" .str (.cons "two" .num .nil)))
        (.cons "notbool" .str
          (.cons "source" .str .nil)))))

/-- The three known-key items of the hover test source object. -/
def fxObjKnownPre : ObjItems :=
  .cons ⟨some "source", ⟨15, 23⟩⟩ (.slit "blah" ⟨26, 32⟩) .nil

def fxObjKnownSuf : ObjItems :=
  .cons ⟨some "bool", ⟨58, 64⟩⟩ (.blit true ⟨67, 71⟩)
    (.cons ⟨some "notbool", ⟨76, 85⟩⟩ (.slit "test" ⟨88, 94⟩) .nil)

/-- The extra item: key `different` is absent from the schema object type. -/
def fxObjExtraKey : ObjKey := ⟨some "different", ⟨37, 48⟩⟩

def fxObjExtraVal : Expr := .nlit 42 ⟨51, 53⟩

/-- The hover test source object with the unknown `different` key present. -/
def fxObjExprWith : Expr :=
  .objCons (fxObjKnownPre.append (.cons fxObjExtraKey fxObjExtraVal fxObjKnownSuf)) ⟨9, 98⟩

/-- The same source object without the unknown key. -/
def fxObjExprWithout : Expr :=
  .objCons (fxObjKnownPre.append fxObjKnownSuf) ⟨9, 98⟩

/-- The rendered signature the hover test expects (unknown keys omitted). -/
def fxObjContent : String :=
  "```\n\x7b\n  bool = bool\n  nested_map = map(string)\n  nested_obj = \x7b\n    one = string\n    two = number\n  \x7d\n  notbool = string\n  source = string\n\x7d\n```\n_object_"

end decoder

namespace decoder

/-- Token types that never receive inherited block modifiers. -/
def nonStructural : TokenType → Bool
  | .blockType => false
  | .blockLabel => false
  | .attrName => false
  | _ => true

theorem promote_id (m : List String) (t : SemanticToken)
    (h : nonStructural t.type = true) : promote m t = t := by
  rcases t with ⟨ty, mods, r⟩
  cases ty <;> simp_all [nonStructural, promote]

theorem promote_promote (m1 m2 : List String) (t : SemanticToken) :
    promote m1 (promote m2 t) = promote (m1 ++ m2) t := by
  rcases t with ⟨ty, mods, r⟩
  cases ty <;> simp [promote, List.append_assoc]

theorem promote_comp (m1 m2 : List String) :
    promote m1 ∘ promote m2 = promote (m1 ++ m2) := by
  funext t
  exact promote_promote m1 m2 t

theorem map_promote_id (m : List String) :
    ∀ (l : List SemanticToken), (∀ x ∈ l, nonStructural x.type = true) →
      l.map (promote m) = l
  | [], _ => rfl
  | x :: rest, h => by
    simp only [List.map_cons]
    rw [promote_id m x (h x (List.mem_cons_self x rest)),
      map_promote_id m rest (fun y hy => h y (List.mem_cons_of_mem x hy))]

theorem tokensForMapItems_types (t : CtyType) :
    ∀ items, ∀ x ∈ tokensForMapItems t items, nonStructural x.type = true
  | .nil => by simp [tokensForMapItems]
  | .cons k v rest => by
    intro x hx
    simp only [tokensForMapItems, List.mem_cons, List.mem_append] at hx
    rcases hx with h | h | h
    · subst h; rfl
    · cases v <;> simp only [] at h <;> first
        | exact absurd h (List.not_mem_nil x)
        | (split at h
           · simp only [List.mem_singleton] at h; subst h; rfl
           · exact absurd h (List.not_mem_nil x))
    · exact tokensForMapItems_types t rest x h

mutual
theorem tokensForExpr_types (tgts : List RefTarget) (ogns : List RefOrigin) :
    ∀ (c : Constraint) (e : Expr), ∀ x ∈ tokensForExpr tgts ogns c e, nonStructural x.type = true
  | .literalType t, e => by
    intro x hx
    cases e <;> simp only [tokensForExpr] at hx <;> first
      | exact absurd hx (List.not_mem_nil x)
      | (split at hx
         · simp only [List.mem_singleton] at hx; subst hx; rfl
         · exact absurd hx (List.not_mem_nil x))
  | .reference ty, e => by
    intro x hx
    cases e <;> simp only [tokensForExpr] at hx <;> try exact absurd hx (List.not_mem_nil x)
    split at hx
    · simp only [List.mem_map] at hx
      rcases hx with ⟨s, _, rfl⟩
      rfl
    · exact absurd hx (List.not_mem_nil x)
  | .oneOf cs, e => by
    intro x hx
    simp only [tokensForExpr] at hx
    exact tokensForFirst_types tgts ogns cs e x hx
  | .mapLit t, e => by
    intro x hx
    cases e <;> simp only [tokensForExpr] at hx <;> try exact absurd hx (List.not_mem_nil x)
    exact tokensForMapItems_types t _ x hx

theorem tokensForFirst_types (tgts : List RefTarget) (ogns : List RefOrigin) :
    ∀ (cs : ConstraintList) (e : Expr), ∀ x ∈ tokensForFirst tgts ogns cs e, nonStructural x.type = true
  | .nil, e => by simp [tokensForFirst]
  | .cons c rest, e => by
    intro x hx
    simp only [tokensForFirst] at hx
    split at hx
    · exact tokensForFirst_types tgts ogns rest e x hx
    · exact tokensForExpr_types tgts ogns c e x hx
end

theorem tokensForExpr_promote (tgts : List RefTarget) (ogns : List RefOrigin)
    (m : List String) (c : Constraint) (e : Expr) :
    (tokensForExpr tgts ogns c e).map (promote m) = tokensForExpr tgts ogns c e :=
  map_promote_id m _ (tokensForExpr_types tgts ogns c e)

end decoder

namespace decoder

theorem tokensForAttr_promote (tgts : List RefTarget) (ogns : List RefOrigin)
    (m : List String) (eff : List (String × AttributeSchema)) (a : BodyAttribute) :
    tokensForAttr tgts ogns m eff a = (tokensForAttr tgts ogns [] eff a).map (promote m) := by
  simp only [tokensForAttr]
  cases lookupAttrSchema eff a.name with
  | none => rfl
  | some s =>
    simp only [List.map_cons, promote, List.nil_append]
    rw [tokensForExpr_promote]

theorem tokensForAttrs_promote (tgts : List RefTarget) (ogns : List RefOrigin)
    (m : List String) (eff : List (String × AttributeSchema)) :
    ∀ (attrs : List BodyAttribute),
      tokensForAttrs tgts ogns m eff attrs = (tokensForAttrs tgts ogns [] eff attrs).map (promote m)
  | [] => rfl
  | a :: rest => by
    simp only [tokensForAttrs, List.map_cons, List.flatten_cons, List.map_append]
    rw [← tokensForAttr_promote]
    have := tokensForAttrs_promote tgts ogns m eff rest
    simp only [tokensForAttrs] at this
    rw [← this]

theorem labelTokens_nil (mods : List String) : ∀ (lss : List LabelSchema),
    labelTokens mods lss [] = []
  | [] => rfl
  | _ :: _ => rfl

theorem labelTokens_promote (m : List String) :
    ∀ (lss : List LabelSchema) (lbls : List Label),
      labelTokens m lss lbls = (labelTokens [] lss lbls).map (promote m)
  | _, [] => by rw [labelTokens_nil, labelTokens_nil]; rfl
  | [], _ :: _ => rfl
  | ls :: lrest, l :: rest => by
    simp only [labelTokens, List.map_cons, promote, List.nil_append]
    rw [labelTokens_promote m lrest rest]

theorem tokensForBlock_promote_aux (tgts : List RefTarget) (ogns : List RefOrigin)
    (dyn : Bool) (bs : OptBodySchema) (m : List String) (tyName : String) (tyR : SrcRange)
    (lbls : List Label) (battrs : List BodyAttribute) (bblocks : BlockList) (srcR : SrcRange)
    (ihBody : ∀ bs' m', tokensForBody tgts ogns dyn m' bs' (.mk battrs bblocks)
      = (tokensForBody tgts ogns dyn [] bs' (.mk battrs bblocks)).map (promote m'))
    (ihContent : ∀ tgt' m', tokensForContentBlocks tgts ogns dyn m' tgt' bblocks
      = (tokensForContentBlocks tgts ogns dyn [] tgt' bblocks).map (promote m')) :
    tokensForBlock tgts ogns dyn m bs (.mk tyName tyR lbls (.mk battrs bblocks) srcR)
      = (tokensForBlock tgts ogns dyn [] bs (.mk tyName tyR lbls (.mk battrs bblocks) srcR)).map (promote m) := by
  simp only [tokensForBlock]
  split
  · cases lbls with
    | nil => rfl
    | cons lbl lrest =>
      cases lrest with
      | cons _ _ => rfl
      | nil =>
        cases hfind : bs.blocksOf.find lbl.value with
        | none => simp [hfind, promote]
        | some tSchema =>
          simp only [hfind, List.map_cons, promote, List.nil_append, List.append_nil]
          rw [ihContent (mergedBodyOf tSchema []) (m ++ tSchema.modifiers),
            ihContent (mergedBodyOf tSchema []) tSchema.modifiers,
            List.map_map, promote_comp]
  · cases hfind : bs.blocksOf.find tyName with
    | none => simp [hfind]
    | some s =>
      simp only [hfind, List.map_cons, promote, List.nil_append, List.map_append]
      refine congrArg₂ List.cons rfl (congrArg₂ List.append ?_ ?_)
      · rw [labelTokens_promote (m ++ s.modifiers) s.labels lbls,
          labelTokens_promote s.modifiers s.labels lbls,
          List.map_map, promote_comp]
      · rw [ihBody (mergedBodyOf s lbls) (m ++ s.modifiers),
          ihBody (mergedBodyOf s lbls) s.modifiers,
          List.map_map, promote_comp]

theorem tokensForContentBlocks_promote_aux (tgts : List RefTarget) (ogns : List RefOrigin)
    (dyn : Bool) (target : OptBodySchema) (m : List String) (n : String) (r : SrcRange)
    (ls : List Label) (cbattrs : List BodyAttribute) (cbblocks : BlockList) (csrc : SrcRange)
    (rest : BlockList)
    (ihBody : ∀ tgt' m', tokensForBody tgts ogns dyn m' tgt' (.mk cbattrs cbblocks)
      = (tokensForBody tgts ogns dyn [] tgt' (.mk cbattrs cbblocks)).map (promote m'))
    (ihRest : ∀ tgt' m', tokensForContentBlocks tgts ogns dyn m' tgt' rest
      = (tokensForContentBlocks tgts ogns dyn [] tgt' rest).map (promote m')) :
    tokensForContentBlocks tgts ogns dyn m target (.cons (.mk n r ls (.mk cbattrs cbblocks) csrc) rest)
      = (tokensForContentBlocks tgts ogns dyn [] target (.cons (.mk n r ls (.mk cbattrs cbblocks) csrc) rest)).map (promote m) := by
  simp only [tokensForContentBlocks, List.map_append]
  rw [← ihRest target m]
  refine congrArg₂ List.append ?_ rfl
  split
  · simp only [List.map_cons, promote, List.nil_append, List.append_nil]
    rw [← ihBody target m]
  · rfl

mutual
theorem tokensForBody_promote (tgts : List RefTarget) (ogns : List RefOrigin) :
    ∀ (b : Body) (dyn : Bool) (bs : OptBodySchema) (m : List String),
      tokensForBody tgts ogns dyn m bs b = (tokensForBody tgts ogns dyn [] bs b).map (promote m)
  | .mk attrs blocks, dyn, bs, m => by
    simp only [tokensForBody, List.map_append]
    rw [← tokensForAttrs_promote,
      ← tokensForBlocks_promote tgts ogns blocks (dyn || bs.extDynamic) bs m]

theorem tokensForBlocks_promote (tgts : List RefTarget) (ogns : List RefOrigin) :
    ∀ (bl : BlockList) (dyn : Bool) (bs : OptBodySchema) (m : List String),
      tokensForBlocks tgts ogns dyn m bs bl = (tokensForBlocks tgts ogns dyn [] bs bl).map (promote m)
  | .nil, _, _, _ => rfl
  | .cons b rest, dyn, bs, m => by
    simp only [tokensForBlocks, List.map_append]
    rw [← tokensForBlock_promote tgts ogns b dyn bs m,
      ← tokensForBlocks_promote tgts ogns rest dyn bs m]

theorem tokensForBlock_promote (tgts : List RefTarget) (ogns : List RefOrigin) :
    ∀ (b : Block) (dyn : Bool) (bs : OptBodySchema) (m : List String),
      tokensForBlock tgts ogns dyn m bs b = (tokensForBlock tgts ogns dyn [] bs b).map (promote m)
  | .mk tyName tyR lbls (.mk battrs bblocks) srcR, dyn, bs, m =>
    tokensForBlock_promote_aux tgts ogns dyn bs m tyName tyR lbls battrs bblocks srcR
      (fun bs' m' => tokensForBody_promote tgts ogns (.mk battrs bblocks) dyn bs' m')
      (fun tgt' m' => tokensForContentBlocks_promote tgts ogns bblocks dyn tgt' m')

theorem tokensForContentBlocks_promote (tgts : List RefTarget) (ogns : List RefOrigin) :
    ∀ (bl : BlockList) (dyn : Bool) (target : OptBodySchema) (m : List String),
      tokensForContentBlocks tgts ogns dyn m target bl
        = (tokensForContentBlocks tgts ogns dyn [] target bl).map (promote m)
  | .nil, _, _, _ => rfl
  | .cons (.mk n r ls (.mk cbattrs cbblocks) csrc) rest, dyn, target, m =>
    tokensForContentBlocks_promote_aux tgts ogns dyn target m n r ls cbattrs cbblocks csrc rest
      (fun tgt' m' => tokensForBody_promote tgts ogns (.mk cbattrs cbblocks) dyn tgt' m')
      (fun tgt' m' => tokensForContentBlocks_promote tgts ogns rest dyn tgt' m')
end

end decoder

/-- Validation of the modelled `Targeting` against behaviours pinned down by
the repository's `TestOrigins_Targeting` cases (nested-target match,
loose match of a dynamically typed target, constraint-less origin against a
type-aware target). -/
theorem targeting_repo_examples :
    reference.targeting
        [⟨[.root "foo"], []⟩,
         ⟨[.root "test"], [⟨none, some .dynamic⟩]⟩,
         ⟨[.root "test", .attr "second"], [⟨none, some .str⟩]⟩]
        (.mk [.root "test"] none
          (some (.obj (.cons "second" .str .nil)))
          (.cons (.mk [.root "test", .attr "second"] none (some .str) .nil) .nil)) =
      [⟨[.root "test"], [⟨none, some .dynamic⟩]⟩,
       ⟨[.root "test", .attr "second"], [⟨none, some .str⟩]⟩]
  ∧ reference.targeting
        [⟨[.root "foo"], [⟨none, none⟩]⟩,
         ⟨[.root "test"], [⟨none, none⟩]⟩,
         ⟨[.root "test", .attr "second"], [⟨none, none⟩]⟩]
        (.mk [.root "test"] none (some .dynamic) .nil) =
      [⟨[.root "test"], [⟨none, none⟩]⟩,
       ⟨[.root "test", .attr "second"], [⟨none, none⟩]⟩]
  ∧ reference.targeting
        [⟨[.root "var", .attr "beta"], []⟩]
        (.mk [.root "var", .attr "beta"] (some "variable") (some .dynamic) .nil) =
      [⟨[.root "var", .attr "beta"], []⟩] :=
  ⟨rfl, rfl, rfl⟩

/-- Claim C1 (amended): for every context whose named file holds an empty
body parsed as the supported `hclsyntax` variant, `SemanticTokensInFile`
returns an empty token list and no error.  (As stated over *every* empty
body the claim fails: an empty body that is not the `hclsyntax` variant,
such as `hcl.EmptyBody()`, yields the unknown-file-format error — see the
counterexample.) -/
theorem C1_emptyBody_amended (files : List (String × decoder.FileBody))
    (schema : decoder.OptBodySchema) (tgts : List decoder.RefTarget)
    (ogns : List decoder.RefOrigin) (name : String)
    (h : decoder.filesFind files name = some (.hclSyntax (.mk [] .nil))) :
    decoder.SemanticTokensInFile ⟨files, schema, tgts, ogns⟩ name = .ok [] := by
  simp [decoder.SemanticTokensInFile, h, decoder.tokensForBody, decoder.tokensForAttrs,
    decoder.tokensForBlocks]

/-- Witness for C1: the zero-byte-content context returns an empty token
list without error. -/
theorem C1_emptyBody_amended_witness :
    decoder.filesFind [("test.tf", .hclSyntax (.mk [] .nil))] "test.tf"
        = some (.hclSyntax (.mk [] .nil))
  ∧ decoder.SemanticTokensInFile decoder.zeroByteCtx "test.tf" = .ok [] :=
  ⟨rfl, C1_emptyBody_amended _ _ _ _ _ rfl⟩

/-- Claim C1, counterexample to the claim as stated: a file whose body is
empty but is not the supported `hclsyntax` variant (`hcl.EmptyBody()`)
makes `SemanticTokensInFile` return the unknown-file-format error rather
than an empty token list. -/
theorem C1_emptyBody_counterexample :
    decoder.SemanticTokensInFile decoder.emptyBodyCtx "test.tf" = .error .unknownFileFormat
  ∧ (Except.error decoder.DecoderError.unknownFileFormat
      ≠ (Except.ok ([] : List decoder.SemanticToken))) :=
  ⟨rfl, by simp⟩

/-- Claim C3 (confirmed): for every context and every file present in it
whose body cannot be classified as the supported `hclsyntax` variant — the
JSON variant included — `SemanticTokensInFile` returns the
unsupported-format error rather than a result. -/
theorem C3_unsupported_format (files : List (String × decoder.FileBody))
    (schema : decoder.OptBodySchema) (tgts : List decoder.RefTarget)
    (ogns : List decoder.RefOrigin) (name : String) (f : decoder.FileBody)
    (h : decoder.filesFind files name = some f) (hf : f.isHclSyntax = false) :
    decoder.SemanticTokensInFile ⟨files, schema, tgts, ogns⟩ name
      = .error .unknownFileFormat := by
  cases f with
  | hclSyntax b => simp [decoder.FileBody.isHclSyntax] at hf
  | jsonBody => simp [decoder.SemanticTokensInFile, h]
  | emptyBody => simp [decoder.SemanticTokensInFile, h]

/-- Witness for C3: the JSON-variant document yields the
unknown-file-format error. -/
theorem C3_unsupported_format_witness :
    decoder.filesFind [("test.tf.json", .jsonBody)] "test.tf.json" = some .jsonBody
  ∧ decoder.FileBody.jsonBody.isHclSyntax = false
  ∧ decoder.SemanticTokensInFile decoder.jsonCtx "test.tf.json" = .error .unknownFileFormat :=
  ⟨rfl, rfl, C3_unsupported_format _ _ _ _ _ _ rfl rfl⟩

/-- Claim C7 (confirmed): an origin that declares no constraints at all
targets exactly the targets with a matching address and a type-aware
(concrete or dynamic) signature; in particular a list of constraint-less
origins never targets a target that carries only a scope identifier and no
type. -/
theorem C7_no_constraints :
    (∀ (t : reference.Target) (o : reference.Origin), o.constraints = [] →
      t.isTargetableBy o = (t.addrMatches o.addr && t.type.isSome))
  ∧ (∀ (ro : List reference.Origin) (a : reference.Address) (sc : Option String),
      ro.all (fun o => o.constraints.isEmpty) = true →
      reference.targeting ro (.mk a sc none .nil) = []) := by
  constructor
  · intro t o h
    simp [reference.Target.isTargetableBy, h]
  · intro ro a sc hall
    have hfilter : ro.filter
        (reference.Target.isTargetableBy (.mk a sc none .nil)) = [] := by
      rw [List.filter_eq_nil_iff]
      intro o ho
      have hempty := List.all_eq_true.mp hall o ho
      simp [reference.Target.isTargetableBy, hempty, reference.Target.type]
    simp [reference.targeting, reference.targetingList, hfilter]

/-- Witness for C7: the constraint-less origin of the repository's JSON edge
cases matches the dynamically typed `var.beta` target and the scope-only
`var.alpha` target matches nothing. -/
theorem C7_no_constraints_witness :
    reference.Target.isTargetableBy
        (.mk [.root "var", .attr "beta"] (some "variable") (some .dynamic) .nil)
        ⟨[.root "var", .attr "beta"], []⟩
      = (reference.Target.addrMatches
          (.mk [.root "var", .attr "beta"] (some "variable") (some .dynamic) .nil)
          [.root "var", .attr "beta"]
        && (Option.some CtyType.dynamic).isSome)
  ∧ reference.targeting [⟨[.root "var", .attr "alpha"], []⟩]
      (.mk [.root "var", .attr "alpha"] (some "variable") none .nil) = [] :=
  ⟨C7_no_constraints.1 _ _ rfl, C7_no_constraints.2 _ _ _ rfl⟩

/-- Claim C2, counterexample to the claim as stated: an origin whose single
constraint names scope identifier `test` does not target the target with
the identical scope identifier `test` (and a concrete string type), because
the constraint names no type — identical scopes alone do not suffice.
This is the repository's own `mismatch of target nil type` test case. -/
theorem C2_scope_counterexample :
    reference.targeting
        [⟨[.root "test"], [⟨some "test", none⟩]⟩]
        (.mk [.root "test"] (some "test") (some .str) .nil) = []
  ∧ reference.Target.scopeId (.mk [.root "test"] (some "test") (some .str) .nil)
      = some "test" :=
  ⟨rfl, rfl⟩

/-- Claim C2 (amended): a scope identifier on an origin constraint is
necessary but not sufficient — if every constraint of an origin names scope
identifier `s`, targets it reaches through `Targeting` carry exactly that
scope identifier; a mismatched or absent scope rejects the pair even when
the types would otherwise be compatible. -/
theorem C2_scope_only_if (ro : List reference.Origin) (a : reference.Address)
    (sc : Option String) (ty : Option CtyType) (o : reference.Origin) (s : String)
    (hmem : o ∈ reference.targeting ro (.mk a sc ty .nil))
    (hne : o.constraints.isEmpty = false)
    (hall : o.constraints.all (fun oc => oc.ofScopeId == some s) = true) :
    sc = some s := by
  have hmem' : o ∈ ro.filter (reference.Target.isTargetableBy (.mk a sc ty .nil)) := by
    simpa [reference.targeting, reference.targetingList] using hmem
  have htgt := (List.mem_filter.mp hmem').2
  simp only [reference.Target.isTargetableBy, hne, Bool.and_eq_true, if_false] at htgt
  obtain ⟨oc, hoc, hmc⟩ := List.any_eq_true.mp htgt.2
  have hsid : oc.ofScopeId = some s := eq_of_beq (List.all_eq_true.mp hall oc hoc)
  simp only [reference.Target.matchesConstraint, hsid, Bool.and_eq_true,
    reference.Target.scopeId] at hmc
  exact eq_of_beq hmc.1

/-- Witness for C2: an origin whose scope-and-type constraint matches is
reached by `Targeting`, and the theorem recovers the target's scope
identifier from that membership. -/
theorem C2_scope_only_if_witness :
    (⟨[.root "v"], [⟨some "s", some .str⟩]⟩ : reference.Origin)
        ∈ reference.targeting [⟨[.root "v"], [⟨some "s", some .str⟩]⟩]
            (.mk [.root "v"] (some "s") (some .str) .nil)
  ∧ (some "s" : Option String) = some "s" := by
  have hmem : (⟨[.root "v"], [⟨some "s", some .str⟩]⟩ : reference.Origin)
      ∈ reference.targeting [⟨[.root "v"], [⟨some "s", some .str⟩]⟩]
          (.mk [.root "v"] (some "s") (some .str) .nil) := by
    show _ ∈ [(⟨[.root "v"], [⟨some "s", some .str⟩]⟩ : reference.Origin)]
    exact List.mem_singleton.mpr rfl
  exact ⟨hmem, C2_scope_only_if _ _ _ _ _ _ hmem rfl rfl⟩

/-- Claim C4, counterexample to the claim as stated: in the document
`module "ref" ...` under a schema whose `module` block declares modifier
`module`, the string token for `"./sub"` carries an empty modifier list —
not the union of the enclosing block's declared modifiers with its own
entry's.  Expression tokens do not accumulate enclosing modifiers. -/
theorem C4_modifier_counterexample :
    decoder.SemanticTokensInFile decoder.modCtx "test.tf" = .ok decoder.modTokens
  ∧ (⟨.strTok, [], ⟨26, 33⟩⟩ : decoder.SemanticToken) ∈ decoder.modTokens
  ∧ ([] : List String) ≠ ["module"] :=
  ⟨rfl, by decide, by decide⟩

/-- Claim C4 (amended): modifiers accumulate down the tree for the
structural tokens — block-type, block-label and attribute-name tokens
receive the concatenation of every enclosing block's declared modifiers (in
declaration order) in front of their own entry's modifiers, while expression
tokens receive none — and a dependency-key label always carries the
`dependent` modifier in addition to its custom modifiers. -/
theorem C4_modifier_accumulation :
    (∀ (tgts : List decoder.RefTarget) (ogns : List decoder.RefOrigin)
        (b : decoder.Body) (dyn : Bool) (bs : decoder.OptBodySchema) (m : List String),
      decoder.tokensForBody tgts ogns dyn m bs b
        = (decoder.tokensForBody tgts ogns dyn [] bs b).map (decoder.promote m))
  ∧ (∀ (m : List String) (ls : decoder.LabelSchema) (lss : List decoder.LabelSchema)
        (l : decoder.Label) (lbls : List decoder.Label),
      ls.isDepKey = true →
      ∃ t rest, decoder.labelTokens m (ls :: lss) (l :: lbls) = t :: rest
        ∧ t.type = .blockLabel ∧ "dependent" ∈ t.modifiers) := by
  constructor
  · intro tgts ogns b dyn bs m
    exact decoder.tokensForBody_promote tgts ogns b dyn bs m
  · intro m ls lss l lbls hdep
    refine ⟨_, _, rfl, rfl, ?_⟩
    refine List.mem_append_right m ?_
    rw [decoder.depKeyMods, if_pos hdep]
    by_cases hm : "dependent" ∈ ls.modifiers
    · rw [if_pos hm]; exact hm
    · rw [if_neg hm]
      exact List.mem_append_right _ (List.mem_singleton.mpr rfl)

/-- Witness for C4: a dependency-key label schema yields a block-label token
carrying the `dependent` modifier. -/
theorem C4_modifier_accumulation_witness :
    ∃ t rest,
      decoder.labelTokens [] [⟨"type", true, ["dependent"]⟩] [⟨"x", ⟨0, 1⟩⟩] = t :: rest
        ∧ t.type = .blockLabel ∧ "dependent" ∈ t.modifiers :=
  C4_modifier_accumulation.2 [] ⟨"type", true, ["dependent"]⟩ [] ⟨"x", ⟨0, 1⟩⟩ [] rfl

/-- Claim C5, counterexample to the claim as stated: in the
`countUndeclared` document the body schema enables the count extension and
the text `count.index` appears inside the block's body, yet no
reference-step token is emitted (the attribute's constraint is a number
literal type and no `count.index` target is in the context). -/
theorem C5_count_counterexample :
    decoder.SemanticTokensInFile decoder.fxUndeclCtx "test.tf" = .ok decoder.fxUndeclTokens
  ∧ decoder.fxUndeclBodySchema.extCount = true
  ∧ ∀ t ∈ decoder.fxUndeclTokens, t.type ≠ .referenceStep :=
  ⟨rfl, rfl, by decide⟩

/-- Claim C5 (amended): with the count extension enabled, `count.index` is
tokenized as two reference-step tokens provided the attribute's schema
admits a compatible reference and the implicit `count.index` target/origin
pair is present and in scope; a block that redeclares `count` as an ordinary
attribute resolves `count` as a plain attribute-name token; and the implicit
target is not applicable outside its own block's scope range.  The first
conjunct is the general resolution rule; the second and third evaluate the
repository's `extensions_basic` and `countIndexInSubBlock` documents (the
latter containing `count.index` in a nested sub-block and `count` redeclared
as an attribute); the last two show the scoped target producing no
reference-step token in a sibling block. -/
theorem C5_count_extension :
    (∀ (tgts : List decoder.RefTarget) (ogns : List decoder.RefOrigin) (ty : CtyType)
        (n1 n2 : String) (r1 r2 r : SrcRange) (o : decoder.RefOrigin) (t : decoder.RefTarget),
      o ∈ ogns → o.range = r → o.addr = [n1, n2] →
      t ∈ tgts → t.localAddr = [n1, n2] → decoder.refTypeOk t.type ty = true →
      t.scopeRange = none →
      decoder.tokensForExpr tgts ogns (.reference ty) (.trav [⟨n1, r1⟩, ⟨n2, r2⟩] r)
        = [⟨.referenceStep, [], r1⟩, ⟨.referenceStep, [], r2⟩])
  ∧ decoder.SemanticTokensInFile decoder.fxCountCtx "test.tf" = .ok decoder.fxCountTokens
  ∧ decoder.SemanticTokensInFile decoder.fxSubCtx "test.tf" = .ok decoder.fxSubTokens
  ∧ decoder.SemanticTokensInFile decoder.fxScopeCtx "test.tf" = .ok decoder.fxScopeTokens
  ∧ (∀ t ∈ decoder.fxScopeTokens, t.type ≠ .referenceStep) := by
  refine ⟨?_, rfl, rfl, rfl, by decide⟩
  intro tgts ogns ty n1 n2 r1 r2 r o t h1 h2 h3 h4 h5 h6 h7
  have hrm : decoder.refMatch tgts ogns ty [⟨n1, r1⟩, ⟨n2, r2⟩] r = true := by
    refine List.any_eq_true.mpr ⟨o, h1, ?_⟩
    simp only [h2, h3, decoder.travAddr, List.map_cons, List.map_nil, Bool.and_eq_true,
      decide_eq_true_eq, beq_iff_eq, List.any_eq_true, true_and, and_true]
    exact ⟨t, h4, ⟨h5, h6⟩, by simp [h7]⟩
  simp [decoder.tokensForExpr, hrm]

/-- Witness for C5: the `extensions_basic` targets and origins resolve the
`count.index` traversal to two reference-step tokens. -/
theorem C5_count_extension_witness :
    decoder.tokensForExpr decoder.fxCountTargets decoder.fxCountOrigins
        (.reference .num) (.trav [⟨"count", ⟨80, 85⟩⟩, ⟨"index", ⟨86, 91⟩⟩] ⟨80, 91⟩)
      = [⟨.referenceStep, [], ⟨80, 85⟩⟩, ⟨.referenceStep, [], ⟨86, 91⟩⟩] :=
  C5_count_extension.1 decoder.fxCountTargets decoder.fxCountOrigins .num
    "count" "index" ⟨80, 85⟩ ⟨86, 91⟩ ⟨80, 91⟩
    ⟨["count", "index"], ⟨80, 91⟩⟩ ⟨["count", "index"], .num, none⟩
    (List.mem_singleton.mpr rfl) rfl rfl (List.mem_singleton.mpr rfl) rfl rfl rfl

/-- Claim C6 (confirmed): a `dynamic` block whose single label resolves to a
block type `T` in the enclosing (dependent-body-merged) schema emits its
wrapper and label tokens and decodes its `content` block's body against
exactly `T`'s resolved body schema — the same schema a directly declared `T`
block would be decoded against (second equation); the second conjunct
evaluates the repository's nested-dynamic document, where the expansion
recurses through `content` into a second `dynamic` block resolved via the
dependent body. -/
theorem C6_dynamic_expansion :
    (∀ (tgts : List decoder.RefTarget) (ogns : List decoder.RefOrigin)
        (mods : List String) (bs : decoder.OptBodySchema) (L : String)
        (lr dr dr2 cr csr dsr dsr2 : SrcRange) (cb : decoder.Body) (T : decoder.BlockSchema),
      bs.blocksOf.find L = some T →
      (L == "dynamic") = false →
      (decoder.tokensForBlock tgts ogns true mods bs
          (.mk "dynamic" dr [⟨L, lr⟩] (.mk [] (.cons (.mk "content" cr [] cb csr) .nil)) dsr)
        = ⟨.blockType, mods, dr⟩ :: ⟨.blockLabel, mods, lr⟩ ::
            ⟨.blockType, mods ++ T.modifiers, cr⟩ ::
            decoder.tokensForBody tgts ogns true (mods ++ T.modifiers)
              (decoder.mergedBodyOf T []) cb)
      ∧ decoder.tokensForBlock tgts ogns true mods bs (.mk L dr2 [] cb dsr2)
        = ⟨.blockType, mods ++ T.modifiers, dr2⟩ ::
            decoder.tokensForBody tgts ogns true (mods ++ T.modifiers)
              (decoder.mergedBodyOf T []) cb)
  ∧ decoder.SemanticTokensInFile decoder.fxDynCtx "test.tf" = .ok decoder.fxDynTokens := by
  refine ⟨?_, rfl⟩
  intro tgts ogns mods bs L lr dr dr2 cr csr dsr dsr2 cb T hfind hL
  constructor
  · simp [decoder.tokensForBlock, hfind, decoder.tokensForContentBlocks]
  · simp [decoder.tokensForBlock, hL, hfind, decoder.labelTokens_nil]

/-- Witness for C6: instantiating the expansion rule at the `setting` block
schema of the dynamic fixture. -/
theorem C6_dynamic_expansion_witness :
    decoder.tokensForBlock [] [] true []
        (.someS (.mk [] (.cons "setting" decoder.fxDynSettingSchema .nil) none))
        (.mk "dynamic" ⟨0, 7⟩ [⟨"setting", ⟨8, 17⟩⟩]
          (.mk [] (.cons (.mk "content" ⟨20, 27⟩ [] (.mk [] .nil) ⟨20, 29⟩) .nil)) ⟨0, 31⟩)
      = ⟨.blockType, [], ⟨0, 7⟩⟩ :: ⟨.blockLabel, [], ⟨8, 17⟩⟩ ::
          ⟨.blockType, [] ++ decoder.fxDynSettingSchema.modifiers, ⟨20, 27⟩⟩ ::
          decoder.tokensForBody [] [] true ([] ++ decoder.fxDynSettingSchema.modifiers)
            (decoder.mergedBodyOf decoder.fxDynSettingSchema []) (.mk [] .nil) :=
  (C6_dynamic_expansion.1 [] [] []
    (.someS (.mk [] (.cons "setting" decoder.fxDynSettingSchema .nil) none))
    "setting" ⟨8, 17⟩ ⟨0, 7⟩ ⟨0, 7⟩ ⟨20, 27⟩ ⟨20, 29⟩ ⟨0, 31⟩ ⟨0, 31⟩ (.mk [] .nil)
    decoder.fxDynSettingSchema rfl rfl).1

/-- Claim C8 (confirmed): for the for-each document, the targets and origins
produced by the collection pass equal the directly-specified ones, and
feeding either into the context yields the identical semantic-token output,
with `each.key` / `each.value` highlighted as reference steps. -/
theorem C8_for_each_round_trip :
    decoder.CollectReferenceTargets decoder.fxFeBareCtx = decoder.fxFeTargets
  ∧ decoder.CollectReferenceOrigins decoder.fxFeBareCtx = decoder.fxFeOrigins
  ∧ decoder.SemanticTokensInFile decoder.fxFeCollectedCtx "test.tf" = .ok decoder.fxFeTokens
  ∧ decoder.SemanticTokensInFile decoder.fxFeDirectCtx "test.tf" = .ok decoder.fxFeTokens :=
  ⟨rfl, rfl, rfl, rfl⟩

/-- Helper for C9: inserting an item whose key names no declared field does
not change the structural match of an object literal. -/
theorem itemsMatchObj_append_skip (fs : Fields) (k : decoder.ObjKey) (v : decoder.Expr)
    (suf : decoder.ObjItems) (h : decoder.itemFieldType fs k = none) :
    ∀ (pre : decoder.ObjItems),
      decoder.itemsMatchObj fs (pre.append (.cons k v suf))
        = decoder.itemsMatchObj fs (pre.append suf)
  | .nil => by simp [decoder.ObjItems.append, decoder.itemsMatchObj, h]
  | .cons k' v' rest => by
    simp only [decoder.ObjItems.append, decoder.itemsMatchObj]
    rw [itemsMatchObj_append_skip fs k v suf h rest]

/-- Claim C9 (confirmed): when hovering over an object literal matched
against a literal object type, a key present in the source but absent from
the schema's object type changes nothing — the hover result (and hence the
rendered type-signature string, which lists only the schema's fields) is
identical with or without it, and its presence does not make the match
fail. -/
theorem C9_unknown_keys_skipped (fs : Fields) (pre suf : decoder.ObjItems)
    (k : decoder.ObjKey) (v : decoder.Expr) (r : SrcRange)
    (h : decoder.itemFieldType fs k = none) :
    decoder.hoverDataForLiteralType (.obj fs) (.objCons (pre.append (.cons k v suf)) r)
      = decoder.hoverDataForLiteralType (.obj fs) (.objCons (pre.append suf) r) := by
  simp [decoder.hoverDataForLiteralType, decoder.exprMatchesType, decoder.Expr.range,
    itemsMatchObj_append_skip fs k v suf h pre]

/-- Witness for C9: the hover test case — the unknown `different` key leaves
the hover data unchanged, and the result renders only the schema's fields. -/
theorem C9_unknown_keys_skipped_witness :
    decoder.hoverDataForLiteralType decoder.fxObjType decoder.fxObjExprWith
        = decoder.hoverDataForLiteralType decoder.fxObjType decoder.fxObjExprWithout
  ∧ decoder.hoverDataForLiteralType decoder.fxObjType decoder.fxObjExprWith
      = some ⟨decoder.fxObjContent, ⟨9, 98⟩⟩ :=
  ⟨C9_unknown_keys_skipped _ decoder.fxObjKnownPre decoder.fxObjKnownSuf
      decoder.fxObjExtraKey decoder.fxObjExtraVal ⟨9, 98⟩ rfl,
   rfl⟩

/-- Helper for C10: the diagnostic-accumulating fold of
`MissingRequiredAttribute.Visit` is one diagnostic per required-and-absent
attribute. -/
theorem visit_foldl_eq (attrs : List String) (r : SrcRange) :
    ∀ (sa : List (String × validator.VAttributeSchema)) (acc : List validator.Diagnostic),
      sa.foldl (fun diags p => if p.2.isRequired && !(attrs.contains p.1)
          then diags ++ [validator.missingDiag p.1 r] else diags) acc
        = acc ++ (sa.filter (fun p => p.2.isRequired && !(attrs.contains p.1))).map
            (fun p => validator.missingDiag p.1 r)
  | [], acc => by simp
  | p :: rest, acc => by
    simp only [List.foldl_cons, List.filter_cons]
    split
    · rw [visit_foldl_eq attrs r rest (acc ++ [validator.missingDiag p.1 r])]
      simp
    · rw [visit_foldl_eq attrs r rest acc]

/-- Claim C10 (confirmed): `MissingRequiredAttribute.Visit` returns no
diagnostics for a non-body node, a nil schema, or a nil attribute map;
otherwise it returns exactly one (error) diagnostic per schema attribute
that is required and absent from the body, and it always passes the context
through unchanged. -/
theorem C10_missing_required_attribute :
    (∀ (α : Type) (ctx : α) (s : Option validator.VBodySchema),
      validator.MissingRequiredAttribute.Visit ctx .other s = (ctx, []))
  ∧ (∀ (α : Type) (ctx : α) (n : validator.VNode),
      validator.MissingRequiredAttribute.Visit ctx n none = (ctx, []))
  ∧ (∀ (α : Type) (ctx : α) (attrs : List String) (r : SrcRange),
      validator.MissingRequiredAttribute.Visit ctx (.body attrs r) (some ⟨none⟩) = (ctx, []))
  ∧ (∀ (α : Type) (ctx : α) (attrs : List String) (r : SrcRange)
        (sa : List (String × validator.VAttributeSchema)),
      validator.MissingRequiredAttribute.Visit ctx (.body attrs r) (some ⟨some sa⟩)
        = (ctx, (sa.filter (fun p => p.2.isRequired && !(attrs.contains p.1))).map
            (fun p => validator.missingDiag p.1 r)))
  ∧ (∀ (α : Type) (ctx : α) (n : validator.VNode) (s : Option validator.VBodySchema),
      (validator.MissingRequiredAttribute.Visit ctx n s).1 = ctx) := by
  refine ⟨fun α ctx s => ?_, fun α ctx n => ?_, fun α ctx attrs r => rfl,
    fun α ctx attrs r sa => ?_, fun α ctx n s => ?_⟩
  · cases s <;> rfl
  · cases n <;> rfl
  · simp only [validator.MissingRequiredAttribute.Visit]
    rw [visit_foldl_eq attrs r sa []]
    rw [List.nil_append]
  · cases n with
    | other => rfl
    | body attrs r =>
      cases s with
      | none => rfl
      | some vb =>
        cases vb with
        | mk att =>
          cases att with
          | none => rfl
          | some sa => rfl
